import Mathlib

/-!
Verification of the container-diff package analyzers (apk and rpm differs).

Go strings are embedded as lists of characters (`Str`), Go maps as
association lists with Go's lookup/insert semantics, and fallible Go
functions as values of `GoResult` (`ok`/`err` mirror Go's
`(value, error)` pair, `crash` marks a runtime panic such as an
out-of-bounds slice index).  External collaborators (the host `rpm`
binary, the docker daemon, the file-lock library) are parameters of the
embedding, supplied through environment structures.
-/

/-- A Go string, embedded as its list of characters. -/
abbrev Str := List Char

/-- `strings.Split(s, sep)` for a one-character separator, on embedded
strings; the separator occurrences are removed and the pieces kept (a
split of a string with no separator is the one-element list). -/
def splitPred (p : Char → Bool) : Str → List Str
  | [] => [[]]
  | c :: cs =>
    if p c then [] :: splitPred p cs
    else
      match splitPred p cs with
      | [] => [[c]]
      | s :: ss => (c :: s) :: ss

/-- Split on a single character, as Go `strings.Split` with a
one-character separator. -/
def splitChar (c : Char) (s : Str) : List Str := splitPred (fun x => x == c) s

/-- Go `PackageInfo` from util: a version string and a size in bytes. -/
structure PackageInfo where
  Version : Str := []
  Size : Int := 0
deriving DecidableEq, Repr

/-- A Go `map[string]util.PackageInfo`, embedded as an association list
with unique keys (first-position insertion, in-place update). -/
abbrev PackageMap := List (Str × PackageInfo)

/-- Go map read `m[k]` with its ok-flag folded into `Option`. -/
def mapLookup : PackageMap → Str → Option PackageInfo
  | [], _ => none
  | (k, v) :: rest, key => if k = key then some v else mapLookup rest key

/-- Go map write `m[k] = v`: update in place when the key exists,
append otherwise. -/
def mapInsert : PackageMap → Str → PackageInfo → PackageMap
  | [], k, v => [(k, v)]
  | (k', v') :: rest, k, v =>
    if k' = k then (k, v) :: rest else (k', v') :: mapInsert rest k v

/-- Outcome of a Go call returning `(value, error)`; `crash` marks a
runtime panic (e.g. an out-of-range index). -/
inductive GoResult (α : Type) where
  | ok (val : α)
  | err (val : α)
  | crash
deriving DecidableEq, Repr

/-- The part of the unpacked filesystem an analyzer can observe: whether
the root directory itself stats, and the files under it (paths relative
to the root, each with its list of lines).  A path present in `files`
is one that `os.Stat` finds. -/
structure ImageFS where
  rootExists : Bool := true
  files : List (Str × List Str) := []
deriving DecidableEq, Repr

/-- Look a path up in the filesystem listing. -/
def findFile : List (Str × List Str) → Str → Option (List Str)
  | [], _ => none
  | (p, ls) :: rest, q => if p = q then some ls else findFile rest q

/-- Lines of the file at `p`, when it exists. -/
def readLines (fs : ImageFS) (p : Str) : Option (List Str) := findFile fs.files p

/-- `os.Stat` success for the path `p` under the image root. -/
def statFile (fs : ImageFS) (p : Str) : Bool := (readLines fs p).isSome

/-- Numeric value of a decimal digit character. -/
def digitVal (c : Char) : Nat := c.toNat - 48

/-- All characters are decimal digits. -/
def allDigits (s : Str) : Bool := s.all (fun c => c.isDigit)

/-- Decimal value of a digit string. -/
def digitsToNat (s : Str) : Nat := s.foldl (fun a c => a * 10 + digitVal c) 0

/-- Go `strconv.ParseInt(s, 10, 64)`: an optional sign followed by at
least one decimal digit, rejected when the value leaves the `int64`
range; `none` is the error case. -/
def goParseInt64 (s : Str) : Option Int :=
  match s with
  | [] => none
  | '+' :: rest =>
    if rest = [] then none
    else if allDigits rest ∧ digitsToNat rest ≤ 9223372036854775807 then
      some (digitsToNat rest)
    else none
  | '-' :: rest =>
    if rest = [] then none
    else if allDigits rest ∧ digitsToNat rest ≤ 9223372036854775808 then
      some (-(digitsToNat rest : Int))
    else none
  | _ =>
    if allDigits s ∧ digitsToNat s ≤ 9223372036854775807 then
      some (digitsToNat s)
    else none

/-- Go `strings.HasPrefix` on embedded strings. -/
def hasPref : Str → Str → Bool
  | [], _ => true
  | _ :: _, [] => false
  | p :: ps, c :: cs => p == c && hasPref ps cs

/-- When `key` starts the line, the remainder of the line after it. -/
def fieldValue (key line : Str) : Option Str :=
  if hasPref key line then some (line.drop key.length) else none

/-- Go `unicode.IsSpace` restricted to the ASCII whitespace that can
occur in the files the analyzers read. -/
def isSpaceChar (c : Char) : Bool := c == ' ' || c == '\t' || c == '\n' || c == '\r'

/-- Go `strings.TrimSpace` on embedded strings. -/
def trimSpace (s : Str) : Str :=
  ((s.dropWhile isSpaceChar).reverse.dropWhile isSpaceChar).reverse

/-- Go `strings.TrimRight(s, "\r\n")`. -/
def trimRightRN (s : Str) : Str :=
  (s.reverse.dropWhile (fun c => c == '\r' || c == '\n')).reverse

/-- Go `strings.Fields`: the maximal whitespace-free substrings. -/
def goFields (s : Str) : List Str :=
  (splitPred isSpaceChar s).filter (fun l => !l.isEmpty)

/-- Strip the leading slashes of a path, so that a `filepath.Join` of
the image root with an absolute-looking path becomes a root-relative
path in the embedded filesystem. -/
def relPath (p : Str) : Str := p.dropWhile (fun c => c == '/')

/-- A materialized image layer: the directory its tar was extracted to. -/
structure Layer where
  FSPath : ImageFS
deriving DecidableEq, Repr

/-- A materialized image: the flattened root and the ordered layers. -/
structure Image where
  FSPath : ImageFS := {}
  Layers : List Layer := []
deriving DecidableEq, Repr

/-- The classification a package diff produces (spec section 4.5):
packages only in image 1, only in image 2, and present in both with
different info. -/
structure PackageDiff where
  Image1Only : List (Str × PackageInfo)
  Image2Only : List (Str × PackageInfo)
  Modified : List (Str × PackageInfo × PackageInfo)
deriving DecidableEq, Repr

/-- Modelled from the spec: the PackageDiffEngine classification of
section 4.5 (`GetMapDiff`, which is not under `src/`): a name in A but
not B goes to `Image1Only` with A's info, a name in B but not A goes to
`Image2Only` with B's info, and a name in both whose infos differ
field-wise goes to `Modified` as `(name, infoA, infoB)`.  The spec
sorts keys only for rendering; here the association-list order of the
inputs is kept. -/
def diffMaps (A B : PackageMap) : PackageDiff :=
  { Image1Only := A.filter (fun p => (mapLookup B p.1).isNone)
    Image2Only := B.filter (fun p => (mapLookup A p.1).isNone)
    Modified := A.filterMap (fun p =>
      match mapLookup B p.1 with
      | some q => if p.2 ≠ q then some (p.1, p.2, q) else none
      | none => none) }

/-- Modelled from the spec: `singleVersionDiff`, the package-analyzer
backbone (not under `src/`), calls `getPackages` on both images and
applies the PackageDiffEngine classification; an error from either
`getPackages` aborts the diff (`none`). -/
def singleVersionDiff (getPkgs : Image → GoResult PackageMap)
    (image1 image2 : Image) : Option PackageDiff :=
  match getPkgs image1, getPkgs image2 with
  | .ok m1, .ok m2 => some (diffMaps m1 m2)
  | _, _ => none

namespace ApkWorld

/-- APK package database location (`src/differs/apk_diff.go`). -/
def apkWorldFile : Str := "etc/apk/world".data

/-- `parseApkInfo` from `src/differs/apk_diff.go`: split the line on
`=`, take index 0 as the package name and index 1 as its version.  The
index-1 access is unguarded in the source, so a line without `=` (a
one-element split) is a runtime panic, embedded as `none`. -/
def parseApkInfo (text currPackage : Str) (packages : PackageMap) :
    Option (Str × PackageMap) :=
  match splitChar '=' text with
  | l0 :: l1 :: _ =>
    some (l0, mapInsert packages l0
      { ((mapLookup packages l0).getD {}) with Version := l1 })
  | _ => none

/-- The scanner loop of `readWorldFile`: feed each line to
`parseApkInfo`, threading the current package name and the map. -/
def scanWorld : List Str → Str → PackageMap → Option PackageMap
  | [], _, packages => some packages
  | t :: rest, currPackage, packages =>
    match parseApkInfo t currPackage packages with
    | none => none
    | some (c, p) => scanWorld rest c p

/-- `readWorldFile` from `src/differs/apk_diff.go`: error when the root
does not stat, empty map when `etc/apk/world` is absent, otherwise the
scan of the world file (a panic inside the scan is `crash`). -/
def readWorldFile (root : ImageFS) : GoResult PackageMap :=
  if root.rootExists then
    match readLines root apkWorldFile with
    | none => .ok []
    | some ls =>
      match scanWorld ls [] [] with
      | none => .crash
      | some packages => .ok packages
  else .err []

namespace ApkAnalyzer

/-- `ApkAnalyzer.getPackages` from `src/differs/apk_diff.go`. -/
def getPackages (image : Image) : GoResult PackageMap :=
  readWorldFile image.FSPath

/-- `ApkAnalyzer.Diff` from `src/differs/apk_diff.go`, through the
spec-modelled `singleVersionDiff` backbone. -/
def Diff (image1 image2 : Image) : Option PackageDiff :=
  singleVersionDiff getPackages image1 image2

end ApkAnalyzer

end ApkWorld

namespace ApkInstalled

/-- APK installed package database location (`src/unnamed/part_001`). -/
def apkInstalledPackagesFile : Str := "lib/apk/db/installed".data

/-- `parseApkInfo` from `src/unnamed/part_001`: a line is processed
only when splitting on `:` yields exactly two fields; `P:` lines set
the current package, `V:` lines record its version, `I:` lines record
its size (`-1` when the value does not parse as an integer), anything
else leaves the state unchanged. -/
def parseApkInfo (text currPackage : Str) (packages : PackageMap) :
    Str × PackageMap :=
  match splitChar ':' text with
  | [key, value] =>
    if key = "P".data then (value, packages)
    else if key = "V".data then
      (currPackage, mapInsert packages currPackage
        { ((mapLookup packages currPackage).getD {}) with Version := value })
    else if key = "I".data then
      (currPackage, mapInsert packages currPackage
        { ((mapLookup packages currPackage).getD {}) with
            Size := (goParseInt64 value).getD (-1) })
    else (currPackage, packages)
  | _ => (currPackage, packages)

/-- The scanner loop of `readWorldFile` in `src/unnamed/part_001`. -/
def scanInstalled : List Str → Str → PackageMap → PackageMap
  | [], _, packages => packages
  | t :: rest, currPackage, packages =>
    match parseApkInfo t currPackage packages with
    | (c, p) => scanInstalled rest c p

/-- `readWorldFile` from `src/unnamed/part_001` (the name is kept from
the source even though this variant reads `lib/apk/db/installed`). -/
def readWorldFile (root : ImageFS) : GoResult PackageMap :=
  if root.rootExists then
    match readLines root apkInstalledPackagesFile with
    | none => .ok []
    | some ls => .ok (scanInstalled ls [] [])
  else .err []

namespace ApkAnalyzer

/-- `ApkAnalyzer.getPackages` from `src/unnamed/part_001`. -/
def getPackages (image : Image) : GoResult PackageMap :=
  readWorldFile image.FSPath

/-- `ApkAnalyzer.Diff` from `src/unnamed/part_001`, through the
spec-modelled `singleVersionDiff` backbone. -/
def Diff (image1 image2 : Image) : Option PackageDiff :=
  singleVersionDiff getPackages image1 image2

end ApkAnalyzer

end ApkInstalled

/-- dpkg status database location (spec section 6). -/
def dpkgStatusFile : Str := "var/lib/dpkg/status".data

/-- Modelled from the spec: the stanza scan of `readStatusFile` (the
dpkg/apt parser, which is not under `src/`).  The spec fixes only the
database location and that sizes arriving in kilobytes are converted to
bytes at ingest; the scan here reads the standard dpkg stanza fields
`Package:`, `Version:` and `Installed-Size:` (KB, converted). -/
def parseStatusLines : List Str → Str → PackageMap → PackageMap
  | [], _, packages => packages
  | l :: rest, curr, packages =>
    match fieldValue ("Package: ".data) l with
    | some name => parseStatusLines rest name packages
    | none =>
      match fieldValue ("Version: ".data) l with
      | some v =>
        parseStatusLines rest curr (mapInsert packages curr
          { ((mapLookup packages curr).getD {}) with Version := v })
      | none =>
        match fieldValue ("Installed-Size: ".data) l with
        | some sz =>
          parseStatusLines rest curr (mapInsert packages curr
            { ((mapLookup packages curr).getD {}) with
                Size := ((goParseInt64 sz).getD 0) * 1024 })
        | none => parseStatusLines rest curr packages

/-- The pure part of the spec-modelled `readStatusFile`: the package
map parsed from `var/lib/dpkg/status`, empty when the file is absent. -/
def statusPackages (fs : ImageFS) : PackageMap :=
  match readLines fs dpkgStatusFile with
  | none => []
  | some ls => parseStatusLines ls [] []

/-- Modelled from the spec: `readStatusFile` (defined in the apt
analyzer, not under `src/`) reads the dpkg status database at
`var/lib/dpkg/status` under the given root; per the spec's error
design, an absent database is an empty map and not an error, and only a
root that does not stat is an error. -/
def readStatusFile (fs : ImageFS) : GoResult PackageMap :=
  if fs.rootExists then .ok (statusPackages fs) else .err []

/-- The per-layer loop shared by both `ApkLayerAnalyzer.getPackages`
variants: call `readStatusFile` on each layer's `FSPath` in layer
order, stopping at the first error. -/
def layersLoop : List Layer → List PackageMap → GoResult (List PackageMap)
  | [], acc => .ok acc
  | l :: rest, acc =>
    match readStatusFile l.FSPath with
    | .ok m => layersLoop rest (acc ++ [m])
    | .err _ => .err acc
    | .crash => .crash

namespace ApkWorld.ApkLayerAnalyzer

/-- `ApkLayerAnalyzer.getPackages` from `src/differs/apk_diff.go`:
gate on the world file in the flattened root, then run `readStatusFile`
— the dpkg status parser — over each layer. -/
def getPackages (image : Image) : GoResult (List PackageMap) :=
  if image.FSPath.rootExists then
    if (readLines image.FSPath ApkWorld.apkWorldFile).isSome then
      layersLoop image.Layers []
    else .ok []
  else .err []

end ApkWorld.ApkLayerAnalyzer

namespace ApkInstalled.ApkLayerAnalyzer

/-- `ApkLayerAnalyzer.getPackages` from `src/unnamed/part_001`: gate on
the installed-packages file in the flattened root, then run
`readStatusFile` — the dpkg status parser — over each layer. -/
def getPackages (image : Image) : GoResult (List PackageMap) :=
  if image.FSPath.rootExists then
    if (readLines image.FSPath ApkInstalled.apkInstalledPackagesFile).isSome then
      layersLoop image.Layers []
    else .ok []
  else .err []

end ApkInstalled.ApkLayerAnalyzer

/-- Result of one `lockfile.TryLock` call made while the lock is not
yet held: success, a temporary (contention) error, or a fatal error. -/
inductive TryRes where
  | success
  | temporary
  | fatal
deriving DecidableEq, Repr

/-- Events observable on the daemon-fallback path, in program order:
the two levels of the DaemonGate, the image load, and the container
lifecycle calls. -/
inductive Ev where
  | mutexLock
  | mutexUnlock
  | tryLockFile (i : Nat)
  | sleepTwoSeconds
  | fileUnlock
  | daemonLoad
  | createContainer
  | startContainer
deriving DecidableEq, Repr

/-- The external collaborators of the daemon-fallback path of
`src/differs/rpm_diff.go`: the docker client, the lockfile library and
the daemon, each abstracted to the outcomes the code branches on. -/
structure DaemonEnv where
  clientOk : Bool := true
  lockfileInitOk : Bool := true
  tryLock : Nat → TryRes := fun _ => .success
  fileUnlockOk : Bool := true
  loadOk : Bool := true
  createOk : Bool := true
  startOk : Bool := true
  waitExit : Option Int := some 0
  logsOk : Bool := true
  containerOut : Str := []

/-- Outcome of the `TryLock` attempt loop in `lock()`: an early return
on a fatal error, or the loop running to its end with the final
held-state of the file lock and whether the last attempt succeeded. -/
inductive LoopOut where
  | fatalStop
  | finished (held lastOk : Bool)
deriving DecidableEq, Repr

/-- The attempt loop of `lock()` in `src/differs/rpm_diff.go`: `fuel`
iterations starting at attempt index `i`.  Each iteration calls
`TryLock` (once the file lock is held, the recursive `lockfile`
implementation keeps succeeding), sleeps two seconds after a temporary
error, and returns at once on any other error.  The loop does not stop
early on success; `lastOk` tracks the `err` variable the code tests
after the loop. -/
def lockLoop (env : DaemonEnv) : Nat → Nat → Bool → Bool → List Ev × LoopOut
  | _, 0, held, lastOk => ([], .finished held lastOk)
  | i, fuel + 1, held, lastOk =>
    match (if held then TryRes.success else env.tryLock i) with
    | .success =>
      let r := lockLoop env (i + 1) fuel true true
      (Ev.tryLockFile i :: r.1, r.2)
    | .temporary =>
      let r := lockLoop env (i + 1) fuel held false
      (Ev.tryLockFile i :: Ev.sleepTwoSeconds :: r.1, r.2)
    | .fatal => ([Ev.tryLockFile i], .fatalStop)

/-- `lock()` from `src/differs/rpm_diff.go`, as the trace of gate
events, whether it returned `nil`, and whether the file lock is held
when it returns.  The in-process mutex is taken first; every error
return releases the mutex before returning; success returns exactly
when the `err` left by the last loop iteration is `nil`. -/
def lock (env : DaemonEnv) : List Ev × Bool × Bool :=
  if env.lockfileInitOk then
    match lockLoop env 0 10 false false with
    | (tr, .fatalStop) => (Ev.mutexLock :: tr ++ [Ev.mutexUnlock], false, false)
    | (tr, .finished held lastOk) =>
      if lastOk then (Ev.mutexLock :: tr, true, held)
      else (Ev.mutexLock :: tr ++ [Ev.mutexUnlock], false, held)
  else ([Ev.mutexLock, Ev.mutexUnlock], false, false)

/-- `unlock()` from `src/differs/rpm_diff.go`: release the file lock
first, then the in-process mutex; either error return releases
neither. -/
def unlock (env : DaemonEnv) : List Ev × Bool :=
  if env.lockfileInitOk then
    if env.fileUnlockOk then ([Ev.fileUnlock, Ev.mutexUnlock], true)
    else ([], false)
  else ([], false)

/-- The three tab-separated fields of an rpm query output line, when
the line has exactly three. -/
def threeFields (l : Str) : Option (Str × Str × Str) :=
  match splitChar '\t' l with
  | [a, b, c] => some (a, b, c)
  | _ => none

/-- The loop of `parsePackageData` in `src/differs/rpm_diff.go`: split
each line on tabs; a line with exactly three fields inserts an entry
(name, version, size), any other line is skipped, and a size that does
not parse returns the partial map with an error. -/
def parseLoop : List Str → PackageMap → GoResult PackageMap
  | [], packages => .ok packages
  | l :: rest, packages =>
    match threeFields l with
    | some (name, version, size) =>
      match goParseInt64 size with
      | none => .err packages
      | some n => parseLoop rest (mapInsert packages name { Version := version, Size := n })
    | none => parseLoop rest packages

/-- `parsePackageData` from `src/differs/rpm_diff.go`. -/
def parsePackageData (rpmOutput : List Str) : GoResult PackageMap :=
  parseLoop rpmOutput []

/-- `rpmDataFromContainer` from `src/differs/rpm_diff.go`, as the trace
of gate and container events together with the returned value.  The
gate is taken around the image load; note that the error return on a
failed load happens before the `unlock()` call. -/
def rpmDataFromContainer (env : DaemonEnv) : List Ev × GoResult PackageMap :=
  if env.clientOk then
    let l := lock env
    if l.2.1 then
      let tr := l.1 ++ [Ev.daemonLoad]
      if env.loadOk then
        let tr := tr ++ (unlock env).1 ++ [Ev.createContainer]
        if env.createOk then
          let tr := tr ++ [Ev.startContainer]
          if env.startOk then
            match env.waitExit with
            | none => (tr, .err [])
            | some code =>
              if env.logsOk then
                if code = 0 then (tr, parsePackageData (splitChar '\n' env.containerOut))
                else (tr, .err [])
              else (tr, .err [])
          else (tr, .err [])
        else (tr, .err [])
      else (tr, .err [])
    else (l.1, .err [])
  else ([], .err [])

/-- The external collaborators of the filesystem path of the rpm
analyzer in `src/differs/rpm_diff.go`: the image filesystem, the host
`rpm` binary (`rpm --version`, `rpm -E`, and the query command run with
`--root`/`--dbpath`), and the daemon environment for the container
fallback. -/
structure RpmWorld where
  fs : ImageFS := {}
  hostRpmOk : Bool := true
  rpmExpand : Str → Option Str := fun _ => none
  rpmQueryOut : Str → Option Str := fun _ => none
  daemon : DaemonEnv := {}

/-- The macros-file scan of `rpmEnvCheck`: the first line whose
trimmed form starts with `%_dbpath` decides the outcome — too few
fields or a failing `rpm -E` is an error, otherwise the expanded path
must stat under the image root; no matching line is an error. -/
def findDbPath (w : RpmWorld) : List Str → Option Str
  | [] => none
  | l :: rest =>
    let line := trimSpace l
    if hasPref ("%_dbpath".data) line then
      match goFields line with
      | _ :: f1 :: _ =>
        match w.rpmExpand f1 with
        | none => none
        | some out =>
          let dbPath := trimRightRN out
          if statFile w.fs (relPath dbPath) then some dbPath else none
      | _ => none
    else findDbPath w rest

/-- `rpmEnvCheck` from `src/differs/rpm_diff.go`: require a host `rpm`
binary, open the image's `/usr/lib/rpm/macros`, and scan it for the
`%_dbpath` macro. -/
def rpmEnvCheck (w : RpmWorld) : Option Str :=
  if w.hostRpmOk then
    match readLines w.fs ("usr/lib/rpm/macros".data) with
    | none => none
    | some ls => findDbPath w ls
  else none

/-- `rpmDataFromFS` from `src/differs/rpm_diff.go`: when the database
directory stats under the root, run the host rpm query against it and
parse its output; a missing database directory is an empty map. -/
def rpmDataFromFS (w : RpmWorld) (dbPath : Str) : GoResult PackageMap :=
  if statFile w.fs (relPath dbPath) then
    match w.rpmQueryOut dbPath with
    | none => .err []
    | some out => parsePackageData (splitChar '\n' out)
  else .ok []

/-- `rpmDataFromImageFS` from `src/differs/rpm_diff.go`. -/
def rpmDataFromImageFS (w : RpmWorld) : GoResult PackageMap :=
  match rpmEnvCheck w with
  | none => .err []
  | some dbPath => rpmDataFromFS w dbPath

namespace RPMAnalyzer

/-- `RPMAnalyzer.getPackages` from `src/differs/rpm_diff.go`: error
when the root does not stat; an empty map (and no error) when neither
`bin/rpm` nor `usr/bin/rpm` exists in the unpacked image; otherwise the
filesystem query, falling back to the container query on error. -/
def getPackages (w : RpmWorld) : GoResult PackageMap :=
  if w.fs.rootExists then
    if statFile w.fs ("bin/rpm".data) || statFile w.fs ("usr/bin/rpm".data) then
      match rpmDataFromImageFS w with
      | .ok m => .ok m
      | _ => (rpmDataFromContainer w.daemon).2
    else .ok []
  else .err []

end RPMAnalyzer

/-- A line is harmless to `parsePackageData`: either it does not have
exactly three fields, or its size field parses. -/
def goodSize (l : Str) : Bool :=
  match threeFields l with
  | some (_, _, c) => (goParseInt64 c).isSome
  | none => true

/-- A line that makes `parsePackageData` fail: exactly three fields
with an unparsable size. -/
def badSize (l : Str) : Bool :=
  match threeFields l with
  | some (_, _, c) => (goParseInt64 c).isNone
  | none => false

/-- The entry a line contributes to the rpm package map, when it has
three fields and a parsable size. -/
def lineInfo (l : Str) : Option (Str × PackageInfo) :=
  match threeFields l with
  | some (a, b, c) =>
    match goParseInt64 c with
    | some n => some (a, { Version := b, Size := n })
    | none => none
  | none => none

/-- The info of the last line among `lines` contributing an entry for
`name`. -/
def lastEntry : List Str → Str → Option PackageInfo
  | [], _ => none
  | l :: rest, name =>
    match lastEntry rest name with
    | some i => some i
    | none =>
      match lineInfo l with
      | some (a, i) => if a = name then some i else none
      | none => none

/-- Number of `TryLock` calls recorded in a trace. -/
def countTry : List Ev → Nat
  | [] => 0
  | Ev.tryLockFile _ :: r => countTry r + 1
  | _ :: r => countTry r

/-- The first of two options, the second when the first is `none`. -/
def orD (a b : Option PackageInfo) : Option PackageInfo :=
  match a with
  | some x => some x
  | none => b

/-- The trace of `n` consecutive transiently-failing `TryLock`
attempts starting at index `i`: each attempt is followed by the
two-second sleep. -/
def tempRunFrom : Nat → Nat → List Ev
  | _, 0 => []
  | i, n + 1 => Ev.tryLockFile i :: Ev.sleepTwoSeconds :: tempRunFrom (i + 1) n

/-- The root of image A in the spec's apk world diff scenario. -/
def rootA : ImageFS :=
  { rootExists := true,
    files := [(ApkWorld.apkWorldFile,
      ["musl=1.2.5-r0".data, "busybox=1.36.1-r29".data])] }

/-- The root of image B in the spec's apk world diff scenario. -/
def rootB : ImageFS :=
  { rootExists := true,
    files := [(ApkWorld.apkWorldFile,
      ["musl=1.2.5-r1".data, "curl=8.8.0-r0".data])] }

/-- Image A of the spec's apk world diff scenario. -/
def imageA : Image := { FSPath := rootA }

/-- Image B of the spec's apk world diff scenario. -/
def imageB : Image := { FSPath := rootB }

/-- A root holding only the apk world file. -/
def fsOnlyWorld : ImageFS :=
  { rootExists := true,
    files := [(ApkWorld.apkWorldFile, ["musl=1.2.5-r0".data])] }

/-- A root holding only the apk installed-packages database. -/
def fsOnlyInstalled : ImageFS :=
  { rootExists := true,
    files := [(ApkInstalled.apkInstalledPackagesFile,
      ["P:musl".data, "V:1.2.5-r0".data, "I:622592".data])] }

/-- A layer directory holding both apk databases (with the package
`foo`) but no dpkg status file. -/
def layerApkOnly : ImageFS :=
  { rootExists := true,
    files := [(ApkInstalled.apkInstalledPackagesFile, ["P:foo".data, "V:1.0-r0".data]),
              (ApkWorld.apkWorldFile, ["foo=1.0-r0".data])] }

/-- An image whose flattened root and single layer both carry the apk
databases with the package `foo`, and no dpkg status file anywhere. -/
def imageApkLayers : Image :=
  { FSPath := layerApkOnly, Layers := [{ FSPath := layerApkOnly }] }

/-- A root whose world file holds a line without `=`. -/
def fsBadWorld : ImageFS :=
  { rootExists := true,
    files := [(ApkWorld.apkWorldFile, ["musl".data])] }

/-- A root with a world file but no rpm binary. -/
def rpmWorldNoBinary : RpmWorld := { fs := { rootExists := true, files := [] } }

/-- A daemon environment whose every `TryLock` fails transiently. -/
def envTemp : DaemonEnv := { tryLock := fun _ => .temporary }

/-- A daemon environment whose first `TryLock` fails fatally. -/
def envFatal : DaemonEnv := { tryLock := fun _ => .fatal }

/-- A daemon environment where everything succeeds except loading the
image into the daemon. -/
def envLoadFail : DaemonEnv := { loadOk := false }

/-- rpm query output with two lines for the same package name. -/
def dupLines : List Str := ["a\t1\t2".data, "a\t3\t4".data]

theorem splitPred_ne_nil (p : Char → Bool) (s : Str) : splitPred p s ≠ [] := by
  cases s with
  | nil => simp [splitPred]
  | cons c cs =>
    by_cases hc : p c
    · simp [splitPred, hc]
    · simp only [splitPred, hc]
      cases h : splitPred p cs <;> simp

theorem splitPred_of_not (p : Char → Bool) (s : Str)
    (h : ∀ x ∈ s, p x = false) : splitPred p s = [s] := by
  induction s with
  | nil => rfl
  | cons c cs ih =>
    have hc : p c = false := h c (List.mem_cons_self c cs)
    have hcs : splitPred p cs = [cs] :=
      ih (fun x hx => h x (List.mem_cons_of_mem _ hx))
    simp [splitPred, hc, hcs]

theorem mapLookup_mapInsert (m : PackageMap) (k key : Str) (v : PackageInfo) :
    mapLookup (mapInsert m k v) key = if k = key then some v else mapLookup m key := by
  induction m with
  | nil => simp [mapInsert, mapLookup]
  | cons p rest ih =>
    by_cases hk : p.1 = k
    · simp only [mapInsert, hk, if_pos rfl, mapLookup]
      by_cases hkey : k = key <;> simp [hkey]
    · simp only [mapInsert, if_neg hk, mapLookup]
      by_cases hkey : p.1 = key
      · have : ¬ k = key := fun he => hk (by rw [hkey, he])
        simp [hkey, this]
      · simp [hkey, ih]

theorem parseApkInfo_no_eq (l c : Str) (pkgs : PackageMap) (h : '=' ∉ l) :
    ApkWorld.parseApkInfo l c pkgs = none := by
  have hs : splitChar '=' l = [l] := by
    apply splitPred_of_not
    intro x hx
    rcases Bool.eq_false_or_eq_true (x == '=') with hb | hb
    · exact absurd (eq_of_beq hb ▸ hx) h
    · exact hb
  unfold ApkWorld.parseApkInfo
  rw [hs]

theorem scanWorld_bad (lines : List Str) :
    ∀ c pkgs l, l ∈ lines → '=' ∉ l → ApkWorld.scanWorld lines c pkgs = none := by
  induction lines with
  | nil => intro c pkgs l hl _; cases hl
  | cons t rest ih =>
    intro c pkgs l hl hno
    rcases List.mem_cons.mp hl with rfl | hmem
    · simp [ApkWorld.scanWorld, parseApkInfo_no_eq _ c pkgs hno]
    · cases hp : ApkWorld.parseApkInfo t c pkgs with
      | none => simp [ApkWorld.scanWorld, hp]
      | some cp =>
        simp only [ApkWorld.scanWorld, hp]
        exact ih cp.1 cp.2 l hmem hno

/-- Claim C1: for image A whose apk database yields the packages
musl 1.2.5-r0 and busybox 1.36.1-r29 and image B whose apk database
yields musl 1.2.5-r1 and curl 8.8.0-r0, `ApkAnalyzer.Diff(A, B)`
returns Image1Only holding exactly busybox at 1.36.1-r29, Image2Only
holding exactly curl at 8.8.0-r0, and Modified holding exactly musl
with 1.2.5-r0 on side A and 1.2.5-r1 on side B. -/
theorem claim_C1 :
    ApkWorld.ApkAnalyzer.Diff imageA imageB =
      some { Image1Only := [("busybox".data, { Version := "1.36.1-r29".data })],
             Image2Only := [("curl".data, { Version := "8.8.0-r0".data })],
             Modified := [("musl".data, { Version := "1.2.5-r0".data },
               { Version := "1.2.5-r1".data })] } := by decide

/-- Claim C2, counterexample: neither apk analyzer variant prefers
`lib/apk/db/installed` with a fallback to `etc/apk/world`.  On a root
holding only the world file (with musl), the installed variant's
`getPackages` returns an empty map instead of falling back; on a root
holding only the installed database (with musl), the world variant's
`getPackages` returns an empty map instead of preferring the richer
database. -/
theorem claim_C2_cex :
    ApkInstalled.ApkAnalyzer.getPackages { FSPath := fsOnlyWorld } = .ok [] ∧
    ApkWorld.readWorldFile fsOnlyWorld =
      .ok [("musl".data, { Version := "1.2.5-r0".data })] ∧
    ApkWorld.ApkAnalyzer.getPackages { FSPath := fsOnlyInstalled } = .ok [] ∧
    ApkInstalled.readWorldFile fsOnlyInstalled =
      .ok [("musl".data, { Version := "1.2.5-r0".data, Size := 622592 })] := by decide

/-- Claim C2, amended: each apk analyzer variant reads exactly one
database.  The installed variant parses `lib/apk/db/installed`
(recording version and size) and returns an empty map whenever that
file is absent, even if `etc/apk/world` exists; the world variant
parses `etc/apk/world` and returns an empty map whenever that file is
absent, even if the installed database exists. -/
theorem claim_C2_amended (fs : ImageFS) (hroot : fs.rootExists = true) :
    (readLines fs ApkInstalled.apkInstalledPackagesFile = none →
      ApkInstalled.readWorldFile fs = .ok []) ∧
    (readLines fs ApkWorld.apkWorldFile = none →
      ApkWorld.readWorldFile fs = .ok []) ∧
    ApkInstalled.readWorldFile fsOnlyInstalled =
      .ok [("musl".data, { Version := "1.2.5-r0".data, Size := 622592 })] := by
  refine ⟨fun h => ?_, fun h => ?_, by decide⟩
  · simp [ApkInstalled.readWorldFile, hroot, h]
  · simp [ApkWorld.readWorldFile, hroot, h]

theorem claim_C2_amended_witness :
    (ApkInstalled.readWorldFile fsOnlyWorld = .ok [] ∧
      ApkWorld.readWorldFile fsOnlyInstalled = .ok []) ∧
    ApkInstalled.readWorldFile fsOnlyInstalled =
      .ok [("musl".data, { Version := "1.2.5-r0".data, Size := 622592 })] :=
  ⟨⟨(claim_C2_amended fsOnlyWorld rfl).1 rfl,
    (claim_C2_amended fsOnlyInstalled rfl).2.1 rfl⟩,
   (claim_C2_amended fsOnlyWorld rfl).2.2⟩

/-- Claim C4: absence of a package database or of a required tool is
not an error.  When the root stats but `etc/apk/world` is absent,
`readWorldFile` returns an empty map and no error; when neither
`bin/rpm` nor `usr/bin/rpm` exists in the unpacked image,
`RPMAnalyzer.getPackages` returns an empty map and no error. -/
theorem claim_C4 (fs : ImageFS) (w : RpmWorld)
    (h1 : fs.rootExists = true)
    (h2 : readLines fs ApkWorld.apkWorldFile = none)
    (h3 : w.fs.rootExists = true)
    (h4 : statFile w.fs ("bin/rpm".data) = false)
    (h5 : statFile w.fs ("usr/bin/rpm".data) = false) :
    ApkWorld.readWorldFile fs = .ok [] ∧ RPMAnalyzer.getPackages w = .ok [] := by
  refine ⟨?_, ?_⟩
  · simp [ApkWorld.readWorldFile, h1, h2]
  · simp [RPMAnalyzer.getPackages, h3, h4, h5]

theorem claim_C4_witness :
    ApkWorld.readWorldFile { rootExists := true } = .ok [] ∧
    RPMAnalyzer.getPackages rpmWorldNoBinary = .ok [] :=
  claim_C4 { rootExists := true } rpmWorldNoBinary rfl rfl rfl rfl rfl

/-- Claim C9: the world-file parser is partial — a world-file line
without `=` makes `parseApkInfo` read index 1 of a one-element split,
so `readWorldFile` crashes on any world file containing such a line. -/
theorem claim_C9 (fs : ImageFS) (lines : List Str) (l : Str)
    (hroot : fs.rootExists = true)
    (hfile : readLines fs ApkWorld.apkWorldFile = some lines)
    (hl : l ∈ lines) (hno : '=' ∉ l) :
    ApkWorld.readWorldFile fs = .crash := by
  simp [ApkWorld.readWorldFile, hroot, hfile, scanWorld_bad lines [] [] l hl hno]

theorem claim_C9_witness : ApkWorld.readWorldFile fsBadWorld = .crash :=
  claim_C9 fsBadWorld ["musl".data] ("musl".data) rfl rfl (by decide) (by decide)

/-- Claim C10: the installed-database parser processes a line only
when splitting on `:` yields exactly two fields, so a line whose value
contains a colon is silently ignored, leaving the map and the current
package unchanged; and an `I:` line whose value does not parse as an
integer records Size `-1` and signals no error. -/
theorem claim_C10 (text currPackage value : Str) (packages : PackageMap) :
    ((splitChar ':' text).length ≠ 2 →
      ApkInstalled.parseApkInfo text currPackage packages = (currPackage, packages)) ∧
    (':' ∉ value → goParseInt64 value = none →
      ApkInstalled.parseApkInfo ('I' :: ':' :: value) currPackage packages =
        (currPackage, mapInsert packages currPackage
          { ((mapLookup packages currPackage).getD {}) with Size := -1 })) := by
  constructor
  · intro h
    rcases hs : splitChar ':' text with _ | ⟨a, _ | ⟨b, _ | ⟨c, t⟩⟩⟩
    · simp [ApkInstalled.parseApkInfo, hs]
    · simp [ApkInstalled.parseApkInfo, hs]
    · exact absurd (by rw [hs]; rfl) h
    · simp [ApkInstalled.parseApkInfo, hs]
  · intro hnc hparse
    have hv : splitPred (fun x => x == ':') value = [value] := by
      apply splitPred_of_not
      intro x hx
      rcases Bool.eq_false_or_eq_true (x == ':') with hb | hb
      · exact absurd (eq_of_beq hb ▸ hx) hnc
      · exact hb
    have hs : splitChar ':' ('I' :: ':' :: value) = [['I'], value] := by
      unfold splitChar
      simp [splitPred, hv]
    unfold ApkInstalled.parseApkInfo
    simp only [hs, hparse, Option.getD_none]
    rw [if_neg (by decide), if_neg (by decide), if_pos (by decide)]

theorem claim_C10_witness :
    ApkInstalled.parseApkInfo ("V:1:2.3-r0".data) ("musl".data) [] = (("musl".data), []) ∧
    ApkInstalled.parseApkInfo ("I:x".data) ("musl".data) [] =
      (("musl".data), [(("musl".data), { Version := [], Size := -1 })]) := by
  constructor
  · exact (claim_C10 ("V:1:2.3-r0".data) ("musl".data) [] []).1 (by decide)
  · have h := (claim_C10 ("V:1:2.3-r0".data) ("musl".data) ("x".data) []).2
      (by decide) (by decide)
    simpa using h

theorem layersLoop_ok (layers : List Layer) :
    ∀ acc, (∀ l ∈ layers, l.FSPath.rootExists = true) →
      layersLoop layers acc = .ok (acc ++ layers.map (fun l => statusPackages l.FSPath)) := by
  induction layers with
  | nil => intro acc _; simp [layersLoop]
  | cons l rest ih =>
    intro acc h
    have hr : l.FSPath.rootExists = true := h l (List.mem_cons_self _ _)
    have hrec := ih (acc ++ [statusPackages l.FSPath])
      (fun x hx => h x (List.mem_cons_of_mem _ hx))
    simp [layersLoop, readStatusFile, hr, hrec]

/-- Claim C3, counterexample: `ApkLayerAnalyzer.getPackages` (both
variants) does not parse the layer's apk package database.  On an
image whose flattened root and single layer both carry the apk
databases with the package `foo` (and no dpkg status file), the
per-layer result is one empty map, although parsing either apk
database under the layer's `FSPath` yields `foo` — the layer loop
calls `readStatusFile`, the dpkg status parser. -/
theorem claim_C3_cex :
    ApkWorld.ApkLayerAnalyzer.getPackages imageApkLayers = .ok [[]] ∧
    ApkInstalled.ApkLayerAnalyzer.getPackages imageApkLayers = .ok [[]] ∧
    ApkInstalled.readWorldFile layerApkOnly =
      .ok [("foo".data, { Version := "1.0-r0".data })] ∧
    ApkWorld.readWorldFile layerApkOnly =
      .ok [("foo".data, { Version := "1.0-r0".data })] ∧
    ApkWorld.ApkLayerAnalyzer.getPackages imageApkLayers ≠
      .ok [[("foo".data, { Version := "1.0-r0".data })]] ∧
    ApkInstalled.ApkLayerAnalyzer.getPackages imageApkLayers ≠
      .ok [[("foo".data, { Version := "1.0-r0".data })]] :=
  ⟨by decide, by decide, by decide, by decide, by decide, by decide⟩

/-- Claim C3, amended: for every image whose flattened root contains
the gating apk database file and whose layer roots all stat,
`ApkLayerAnalyzer.getPackages` returns one PackageMap per layer, in
layer order aligned with `Image.Layers` — but each map is produced by
`readStatusFile`, the dpkg status-file parser, over that layer's
`FSPath`, not by the apk database parser. -/
theorem claim_C3_amended (img : Image)
    (hroot : img.FSPath.rootExists = true)
    (hlayers : ∀ l ∈ img.Layers, l.FSPath.rootExists = true) :
    ((readLines img.FSPath ApkWorld.apkWorldFile).isSome = true →
      ApkWorld.ApkLayerAnalyzer.getPackages img =
        .ok (img.Layers.map (fun l => statusPackages l.FSPath))) ∧
    ((readLines img.FSPath ApkInstalled.apkInstalledPackagesFile).isSome = true →
      ApkInstalled.ApkLayerAnalyzer.getPackages img =
        .ok (img.Layers.map (fun l => statusPackages l.FSPath))) := by
  constructor
  · intro h
    simp [ApkWorld.ApkLayerAnalyzer.getPackages, hroot, h,
      layersLoop_ok img.Layers [] hlayers]
  · intro h
    simp [ApkInstalled.ApkLayerAnalyzer.getPackages, hroot, h,
      layersLoop_ok img.Layers [] hlayers]

theorem claim_C3_amended_witness :
    ApkWorld.ApkLayerAnalyzer.getPackages imageApkLayers =
      .ok (imageApkLayers.Layers.map (fun l => statusPackages l.FSPath)) ∧
    ApkInstalled.ApkLayerAnalyzer.getPackages imageApkLayers =
      .ok (imageApkLayers.Layers.map (fun l => statusPackages l.FSPath)) :=
  ⟨(claim_C3_amended imageApkLayers rfl (by decide)).1 (by decide),
   (claim_C3_amended imageApkLayers rfl (by decide)).2 (by decide)⟩

/-- Claim C8, counterexample: `parsePackageData` does not return one
entry per three-field line — two lines sharing a name collapse to one
entry holding the later line's version and size, and the first line's
version is lost. -/
theorem claim_C8_cex :
    parsePackageData dupLines = .ok [("a".data, { Version := "3".data, Size := 4 })] ∧
    (dupLines.filter (fun l => (threeFields l).isSome)).length = 2 := by decide

theorem parseLoop_ok (lines : List Str) :
    ∀ m0, (∀ l ∈ lines, goodSize l = true) →
      ∃ m, parseLoop lines m0 = .ok m ∧
        ∀ name, mapLookup m name = orD (lastEntry lines name) (mapLookup m0 name) := by
  induction lines with
  | nil =>
    intro m0 _
    exact ⟨m0, rfl, fun name => by simp [lastEntry, orD]⟩
  | cons l rest ih =>
    intro m0 h
    have hl : goodSize l = true := h l (List.mem_cons_self _ _)
    have hrest : ∀ x ∈ rest, goodSize x = true :=
      fun x hx => h x (List.mem_cons_of_mem _ hx)
    cases h3 : threeFields l with
    | none =>
      obtain ⟨m, hm, hlook⟩ := ih m0 hrest
      refine ⟨m, by simp [parseLoop, h3, hm], fun name => ?_⟩
      rw [hlook name]
      cases hrec : lastEntry rest name with
      | some i => simp [lastEntry, hrec, orD]
      | none => simp [lastEntry, hrec, lineInfo, h3, orD]
    | some abc =>
      obtain ⟨a, b, c⟩ := abc
      cases hp : goParseInt64 c with
      | none => exact absurd (by simp [goodSize, h3, hp] : goodSize l = false) (by simp [hl])
      | some n =>
        obtain ⟨m, hm, hlook⟩ := ih (mapInsert m0 a { Version := b, Size := n }) hrest
        refine ⟨m, by simp [parseLoop, h3, hp, hm], fun name => ?_⟩
        rw [hlook name]
        cases hrec : lastEntry rest name with
        | some i => simp [lastEntry, hrec, orD]
        | none =>
          simp only [lastEntry, hrec, lineInfo, h3, hp, orD,
            mapLookup_mapInsert]
          by_cases hname : a = name
          · simp [hname]
          · simp [hname]

theorem parseLoop_err (lines : List Str) :
    ∀ m0 l, l ∈ lines → badSize l = true → ∃ m, parseLoop lines m0 = .err m := by
  induction lines with
  | nil => intro m0 l hl _; cases hl
  | cons t rest ih =>
    intro m0 l hl hbad
    cases h3 : threeFields t with
    | none =>
      rcases List.mem_cons.mp hl with rfl | hmem
      · rw [badSize, h3] at hbad; cases hbad
      · obtain ⟨m, hm⟩ := ih m0 l hmem hbad
        exact ⟨m, by simp [parseLoop, h3, hm]⟩
    | some abc =>
      obtain ⟨a, b, c⟩ := abc
      cases hp : goParseInt64 c with
      | none => exact ⟨m0, by simp [parseLoop, h3, hp]⟩
      | some n =>
        rcases List.mem_cons.mp hl with rfl | hmem
        · exfalso; simp [badSize, h3, hp] at hbad
        · obtain ⟨m, hm⟩ := ih (mapInsert m0 a { Version := b, Size := n }) l hmem hbad
          exact ⟨m, by simp [parseLoop, h3, hp, hm]⟩

/-- Claim C8, amended: `parsePackageData` splits each line on tabs and,
when every three-field line has a parsable size, returns a map with one
entry per distinct name occurring as the first field of a three-field
line, holding the version (second field) and size (third field, parsed
base 10) of the last such line for that name; lines not splitting into
exactly three fields contribute no entry; and a three-field line whose
size field is not a valid integer makes the function return an
error. -/
theorem claim_C8_amended (lines : List Str) :
    ((∀ l ∈ lines, goodSize l = true) →
      ∃ m, parsePackageData lines = .ok m ∧
        ∀ name, mapLookup m name = lastEntry lines name) ∧
    ((∃ l ∈ lines, badSize l = true) →
      ∃ m, parsePackageData lines = .err m) := by
  constructor
  · intro h
    obtain ⟨m, hm, hlook⟩ := parseLoop_ok lines [] h
    refine ⟨m, hm, fun name => ?_⟩
    rw [hlook name]
    cases hle : lastEntry lines name <;> simp [orD, mapLookup]
  · rintro ⟨l, hl, hbad⟩
    exact parseLoop_err lines [] l hl hbad

theorem claim_C8_amended_witness :
    (∃ m, parsePackageData dupLines = .ok m ∧
      ∀ name, mapLookup m name = lastEntry dupLines name) ∧
    (∃ m, parsePackageData ["b\tx\ty".data] = .err m) :=
  ⟨(claim_C8_amended dupLines).1 (by decide),
   (claim_C8_amended ["b\tx\ty".data]).2 ⟨"b\tx\ty".data, by decide, by decide⟩⟩

/-- Claim C5, code evaluated at the failing input: with a reachable
daemon and an uncontended file lock, but a failing image load, the
acquisition succeeds (the trace opens with the mutex lock and ten
successful `TryLock` calls and holds no `mutexUnlock`), the image load
is attempted, and `rpmDataFromContainer` returns an error with the gate
still held — the trace records no `fileUnlock` and no `mutexUnlock`
after the acquisition, contradicting release-on-every-return-path. -/
theorem claim_C5_eval :
    (rpmDataFromContainer envLoadFail).1 =
      Ev.mutexLock :: ((List.range 10).map Ev.tryLockFile) ++ [Ev.daemonLoad] ∧
    (rpmDataFromContainer envLoadFail).2 = .err [] ∧
    Ev.fileUnlock ∉ (rpmDataFromContainer envLoadFail).1 ∧
    Ev.mutexUnlock ∉ (rpmDataFromContainer envLoadFail).1 := by decide

theorem lock_shape (env : DaemonEnv) :
    ((lock env).2.1 = false ∧
      ∃ tr, (lock env).1 = Ev.mutexLock :: tr ++ [Ev.mutexUnlock]) ∨
    ((lock env).2.1 = true ∧ ∃ tr, (lock env).1 = Ev.mutexLock :: tr) := by
  unfold lock
  cases hinit : env.lockfileInitOk with
  | false => exact Or.inl ⟨rfl, [], rfl⟩
  | true =>
    rcases hl : lockLoop env 0 10 false false with ⟨tr, out⟩
    cases out with
    | fatalStop => exact Or.inl ⟨rfl, tr, rfl⟩
    | finished held lastOk =>
      cases lastOk with
      | true => exact Or.inr ⟨rfl, tr, rfl⟩
      | false => exact Or.inl ⟨rfl, tr, rfl⟩

theorem lock_head (env : DaemonEnv) : ∃ r, (lock env).1 = Ev.mutexLock :: r := by
  rcases lock_shape env with ⟨_, tr, htr⟩ | ⟨_, tr, htr⟩
  · exact ⟨tr ++ [Ev.mutexUnlock], htr⟩
  · exact ⟨tr, htr⟩

/-- Claim C6: the DaemonGate keeps the two-level discipline — `lock()`
takes the in-process mutex strictly before any file-lock attempt and
releases the mutex before returning on every failure path, and
`unlock()` releases in reverse order, the file lock first and then the
in-process mutex. -/
theorem claim_C6 (env : DaemonEnv) :
    (∀ pre post i, (lock env).1 = pre ++ Ev.tryLockFile i :: post →
      Ev.mutexLock ∈ pre) ∧
    ((lock env).2.1 = false → (lock env).1.getLast? = some Ev.mutexUnlock) ∧
    (env.lockfileInitOk = true → env.fileUnlockOk = true →
      (unlock env).1 = [Ev.fileUnlock, Ev.mutexUnlock]) := by
  obtain ⟨r, hr⟩ := lock_head env
  refine ⟨?_, ?_, ?_⟩
  · intro pre post i h
    rcases pre with _ | ⟨a, pre⟩
    · rw [hr] at h
      simp at h
    · rw [hr, List.cons_append] at h
      have ha : Ev.mutexLock = a := (List.cons.injEq _ _ _ _ ▸ h).1
      rw [← ha]
      exact List.mem_cons_self _ _
  · intro hfail
    rcases lock_shape env with ⟨_, tr, htr⟩ | ⟨hs, _⟩
    · rw [htr, List.getLast?_concat]
    · rw [hs] at hfail
      cases hfail
  · intro h1 h2
    simp [unlock, h1, h2]

theorem claim_C6_witness :
    Ev.mutexLock ∈ [Ev.mutexLock] ∧
    (lock envFatal).1.getLast? = some Ev.mutexUnlock ∧
    (unlock envFatal).1 = [Ev.fileUnlock, Ev.mutexUnlock] :=
  ⟨(claim_C6 envFatal).1 [Ev.mutexLock] [Ev.mutexUnlock] 0 (by decide),
   (claim_C6 envFatal).2.1 (by decide),
   (claim_C6 envFatal).2.2 rfl rfl⟩

theorem countTry_append (a b : List Ev) : countTry (a ++ b) = countTry a + countTry b := by
  induction a with
  | nil => simp [countTry]
  | cons e r ih =>
    cases e <;> simp [countTry, ih] <;> omega

theorem lockLoop_count (env : DaemonEnv) :
    ∀ fuel i held lastOk, countTry (lockLoop env i fuel held lastOk).1 ≤ fuel := by
  intro fuel
  induction fuel with
  | zero => intro i held lastOk; simp [lockLoop, countTry]
  | succ n ih =>
    intro i held lastOk
    unfold lockLoop
    cases hres : (if held then TryRes.success else env.tryLock i) with
    | success =>
      have := ih (i + 1) true true
      simpa [countTry] using this
    | temporary =>
      have := ih (i + 1) held false
      simpa [countTry] using this
    | fatal => simp [countTry]

theorem lockLoop_temp (env : DaemonEnv) :
    ∀ fuel i, (∀ j, i ≤ j → j < i + fuel → env.tryLock j = .temporary) →
      lockLoop env i fuel false false = (tempRunFrom i fuel, .finished false false) := by
  intro fuel
  induction fuel with
  | zero => intro i _; rfl
  | succ n ih =>
    intro i h
    have hi : env.tryLock i = .temporary := h i (Nat.le_refl i) (by omega)
    have hrec := ih (i + 1) (fun j hj1 hj2 => h j (by omega) (by omega))
    simp only [lockLoop]
    simp [hi, hrec, tempRunFrom]

theorem lockLoop_fatal (env : DaemonEnv) :
    ∀ k fuel i, k < fuel → (∀ j, i ≤ j → j < i + k → env.tryLock j = .temporary) →
      env.tryLock (i + k) = .fatal →
      lockLoop env i fuel false false =
        (tempRunFrom i k ++ [Ev.tryLockFile (i + k)], .fatalStop) := by
  intro k
  induction k with
  | zero =>
    intro fuel i hk h hf
    cases fuel with
    | zero => omega
    | succ n =>
      rw [Nat.add_zero] at hf
      simp only [lockLoop]
      simp [hf, tempRunFrom]
  | succ m ih =>
    intro fuel i hk h hf
    cases fuel with
    | zero => omega
    | succ n =>
      have hi : env.tryLock i = .temporary := h i (Nat.le_refl i) (by omega)
      have hidx : i + 1 + m = i + (m + 1) := by omega
      have hrec := ih n (i + 1) (by omega)
        (fun j hj1 hj2 => h j (by omega) (by omega)) (by rw [hidx]; exact hf)
      simp only [lockLoop]
      simp [hi, hrec, tempRunFrom, hidx]

theorem lockLoop_res (env : DaemonEnv) :
    ∀ fuel i b, (lockLoop env i fuel b b).2 = .fatalStop ∨
      ∃ c, (lockLoop env i fuel b b).2 = .finished c c := by
  intro fuel
  induction fuel with
  | zero => intro i b; exact Or.inr ⟨b, rfl⟩
  | succ n ih =>
    intro i b
    cases b with
    | true =>
      have := ih (i + 1) true
      simp only [lockLoop]
      simpa using this
    | false =>
      cases henv : env.tryLock i with
      | success =>
        have := ih (i + 1) true
        simp only [lockLoop]
        simpa [henv] using this
      | temporary =>
        have := ih (i + 1) false
        simp only [lockLoop]
        simpa [henv] using this
      | fatal =>
        simp only [lockLoop]
        simp [henv]

/-- Claim C7: `lock()` attempts `TryLock` a bounded number of times
(at most 10), sleeping a fixed two seconds after each
transient-contention failure (exhibited by the full trace when every
attempt fails transiently — note the loop performs all ten attempts);
a non-transient `TryLock` error after `i` transient failures returns an
error immediately, with no further attempts; and `lock()` returns
success exactly when the final state of the attempt loop is a held
file lock. -/
theorem claim_C7 (env : DaemonEnv) (i : Nat) :
    countTry (lock env).1 ≤ 10 ∧
    (env.lockfileInitOk = true → (∀ j, j < 10 → env.tryLock j = .temporary) →
      (lock env).1 = Ev.mutexLock :: tempRunFrom 0 10 ++ [Ev.mutexUnlock] ∧
      (lock env).2.1 = false) ∧
    (env.lockfileInitOk = true → i < 10 →
      (∀ j, j < i → env.tryLock j = .temporary) → env.tryLock i = .fatal →
      (lock env).1 = Ev.mutexLock :: tempRunFrom 0 i ++ [Ev.tryLockFile i, Ev.mutexUnlock] ∧
      (lock env).2.1 = false) ∧
    (lock env).2.1 = (lock env).2.2 := by
  refine ⟨?_, ?_, ?_, ?_⟩
  · unfold lock
    cases hinit : env.lockfileInitOk with
    | false => simp [countTry]
    | true =>
      have hc := lockLoop_count env 10 0 false false
      rcases hl : lockLoop env 0 10 false false with ⟨tr, out⟩
      rw [hl] at hc
      cases out with
      | fatalStop => simpa [countTry, countTry_append] using hc
      | finished held lastOk =>
        cases lastOk with
        | true => simpa [countTry] using hc
        | false => simpa [countTry, countTry_append] using hc
  · intro hinit h
    have := lockLoop_temp env 10 0 (fun j hj1 hj2 => h j (by omega))
    constructor <;> simp [lock, hinit, this]
  · intro hinit hi h hf
    have := lockLoop_fatal env i 10 0 hi (fun j hj1 hj2 => h j (by omega))
      (by rw [Nat.zero_add]; exact hf)
    rw [Nat.zero_add] at this
    constructor <;> simp [lock, hinit, this]
  · unfold lock
    cases hinit : env.lockfileInitOk with
    | false => rfl
    | true =>
      rcases hres : lockLoop env 0 10 false false with ⟨tr, out⟩
      rcases lockLoop_res env 10 0 false with hfat | ⟨c, hfin⟩
      · rw [hres] at hfat
        simp only at hfat
        rw [hfat]
        rfl
      · rw [hres] at hfin
        simp only at hfin
        rw [hfin]
        cases c <;> rfl

theorem claim_C7_witness :
    countTry (lock envTemp).1 ≤ 10 ∧
    ((lock envTemp).1 = Ev.mutexLock :: tempRunFrom 0 10 ++ [Ev.mutexUnlock] ∧
      (lock envTemp).2.1 = false) ∧
    ((lock envFatal).1 = Ev.mutexLock :: tempRunFrom 0 0 ++
        [Ev.tryLockFile 0, Ev.mutexUnlock] ∧
      (lock envFatal).2.1 = false) ∧
    (lock envFatal).2.1 = (lock envFatal).2.2 :=
  ⟨(claim_C7 envTemp 0).1,
   (claim_C7 envTemp 0).2.1 rfl (fun j _ => rfl),
   (claim_C7 envFatal 0).2.2.1 rfl (by omega) (fun j hj => absurd hj (by omega)) rfl,
   (claim_C7 envFatal 0).2.2.2⟩
